import Mathlib

/-!
Verification development for the dc-council-agent ingestion/dedup/rank/summarize
pipeline.  Each definition is a shallow embedding of the corresponding Python
function in `src/`; theorems at the end of the file settle the specification
claims against these embeddings.

Modelling conventions:
* Python `str` is Lean `String`; character classes (`\w`, `\s`) are embedded
  for the ASCII range (Python's `re` defaults to Unicode classes, which agree
  with these on ASCII input).
* Machine integers are `Nat`/`Int` with explicit `% 2 ^ 32` where the source
  (SHA-256) works modulo 32 bits.
* Python `dict` rows from sqlite are a `Row` structure whose field types follow
  the `items` table schema (`NOT NULL` columns are `String`, nullable columns
  are `Option String`).
* Python float comparisons of exact small rationals (Jaccard thresholds) are
  embedded as exact integer inequalities `100 * i ≥ 62 * u` etc.; this agrees
  with the source's float comparison for every set size below 2 ^ 52, far above
  anything a bullet list can produce.
-/

/-! ## Python string primitives (`utils.normalize_text` and friends) -/

/-- Python `\s` (ASCII range): the whitespace characters recognised by
`str.strip` and `re` on ASCII input. -/
def pyIsSpace (c : Char) : Bool :=
  c == ' ' || c == '\t' || c == '\n' || c == '\r' || c == '\x0b' || c == '\x0c'

/-- Python `\w` (ASCII range): letters, digits and underscore. -/
def pyIsWordChar (c : Char) : Bool :=
  c.isAlphanum || c == '_'

/-- `str.strip()`: drop leading and trailing whitespace. -/
def pyStrip (l : List Char) : List Char :=
  ((l.dropWhile pyIsSpace).reverse.dropWhile pyIsSpace).reverse

/-- `re.sub(r"\s+", " ", ·)`: collapse each maximal whitespace run to one
space.  The `Bool` argument records whether the previous character was
whitespace (i.e. whether we are inside a run). -/
def collapseWsGo : Bool → List Char → List Char
  | _, [] => []
  | prevSpace, c :: rest =>
    if pyIsSpace c then
      if prevSpace then collapseWsGo true rest
      else ' ' :: collapseWsGo true rest
    else c :: collapseWsGo false rest

/-- `utils.normalize_text`: lowercase, strip ends, collapse whitespace runs to
one space, remove all characters that are neither word nor whitespace. -/
def normalize_text (s : String) : String :=
  let t1 := s.toList.map Char.toLower
  let t2 := pyStrip t1
  let t3 := collapseWsGo false t2
  let t4 := t3.filter (fun c => pyIsWordChar c || pyIsSpace c)
  String.mk t4

/-! ## SHA-256 (`hashlib.sha256(...).hexdigest()`)

A direct embedding of FIPS 180-4 over `Nat` arithmetic mod `2 ^ 32`, operating
on the UTF-8 bytes of the input string exactly as `str.encode("utf-8")` does. -/

/-- Truncate to a 32-bit word. -/
def w32 (n : Nat) : Nat := n % 4294967296

/-- Rotate a 32-bit word right by `k` bits. -/
def rotr32 (k n : Nat) : Nat := n / 2 ^ k + n % 2 ^ k * 2 ^ (32 - k)

/-- Shift a 32-bit word right by `k` bits. -/
def shr32 (k n : Nat) : Nat := n / 2 ^ k

/-- Bitwise complement of a 32-bit word. -/
def not32 (n : Nat) : Nat := 4294967295 ^^^ n

/-- The 64 SHA-256 round constants. -/
def sha256K : List Nat :=
  [1116352408, 1899447441, 3049323471, 3921009573, 961987163,
   1508970993, 2453635748, 2870763221, 3624381080, 310598401,
   607225278, 1426881987, 1925078388, 2162078206, 2614888103,
   3248222580, 3835390401, 4022224774, 264347078, 604807628,
   770255983, 1249150122, 1555081692, 1996064986, 2554220882,
   2821834349, 2952996808, 3210313671, 3336571891, 3584528711,
   113926993, 338241895, 666307205, 773529912, 1294757372,
   1396182291, 1695183700, 1986661051, 2177026350, 2456956037,
   2730485921, 2820302411, 3259730800, 3345764771, 3516065817,
   3600352804, 4094571909, 275423344, 430227734, 506948616,
   659060556, 883997877, 958139571, 1322822218, 1537002063,
   1747873779, 1955562222, 2024104815, 2227730452, 2361852424,
   2428436474, 2756734187, 3204031479, 3329325298]

/-- The SHA-256 initial hash value. -/
def sha256H0 : List Nat :=
  [1779033703, 3144134277, 1013904242, 2773480762,
   1359893119, 2600822924, 528734635, 1541459225]

/-- Big-endian 8-byte rendering of a 64-bit length. -/
def be64 (n : Nat) : List Nat :=
  [n / 2 ^ 56 % 256, n / 2 ^ 48 % 256, n / 2 ^ 40 % 256, n / 2 ^ 32 % 256,
   n / 2 ^ 24 % 256, n / 2 ^ 16 % 256, n / 2 ^ 8 % 256, n % 256]

/-- Big-endian 4-byte rendering of a 32-bit word. -/
def be32 (n : Nat) : List Nat :=
  [n / 2 ^ 24 % 256, n / 2 ^ 16 % 256, n / 2 ^ 8 % 256, n % 256]

/-- SHA-256 message padding: append `0x80`, zero bytes to 56 mod 64, then the
bit length as a big-endian 64-bit value. -/
def sha256Pad (msg : List Nat) : List Nat :=
  let L := msg.length
  let z := (119 - L % 64) % 64
  msg ++ [128] ++ List.replicate z 0 ++ be64 (L * 8 % 2 ^ 64)

/-- Split a list into 64-byte blocks; the fuel is an upper bound on the
number of blocks (each step consumes at least one byte). -/
def chunks64Go : Nat → List Nat → List (List Nat)
  | 0, _ => []
  | _, [] => []
  | fuel + 1, l => l.take 64 :: chunks64Go fuel (l.drop 64)

/-- Split the padded message into 64-byte blocks. -/
def chunks64 (l : List Nat) : List (List Nat) := chunks64Go l.length l

/-- Group bytes into big-endian 32-bit words. -/
def wordsBE : List Nat → List Nat
  | b0 :: b1 :: b2 :: b3 :: rest =>
    (b0 * 16777216 + b1 * 65536 + b2 * 256 + b3) :: wordsBE rest
  | _ => []

/-- σ0 of the SHA-256 message schedule. -/
def ssig0 (n : Nat) : Nat := rotr32 7 n ^^^ rotr32 18 n ^^^ shr32 3 n

/-- σ1 of the SHA-256 message schedule. -/
def ssig1 (n : Nat) : Nat := rotr32 17 n ^^^ rotr32 19 n ^^^ shr32 10 n

/-- Extend 16 message words to the 64-entry schedule. -/
def sha256Schedule (w16 : List Nat) : List Nat :=
  (List.range 48).foldl
    (fun w _ =>
      w ++ [w32 (ssig1 (w.getD (w.length - 2) 0) + w.getD (w.length - 7) 0 +
                 ssig0 (w.getD (w.length - 15) 0) + w.getD (w.length - 16) 0)])
    w16

/-- One SHA-256 compression round on the 8-word working state. -/
def sha256Round (st : List Nat) (kw : Nat × Nat) : List Nat :=
  match st with
  | [a, b, c, d, e, f, g, h] =>
    let s1 := rotr32 6 e ^^^ rotr32 11 e ^^^ rotr32 25 e
    let ch := e &&& f ^^^ not32 e &&& g
    let t1 := w32 (h + s1 + ch + kw.1 + kw.2)
    let s0 := rotr32 2 a ^^^ rotr32 13 a ^^^ rotr32 22 a
    let mj := a &&& b ^^^ a &&& c ^^^ b &&& c
    let t2 := w32 (s0 + mj)
    [w32 (t1 + t2), a, b, c, w32 (d + t1), e, f, g]
  | other => other

/-- Compress one 64-byte block into the running hash. -/
def sha256Compress (H : List Nat) (chunk : List Nat) : List Nat :=
  let w := sha256Schedule (wordsBE chunk)
  let st := (sha256K.zip w).foldl sha256Round H
  (H.zip st).map (fun p => w32 (p.1 + p.2))

/-- SHA-256 digest (32 bytes) of a byte sequence. -/
def sha256Bytes (msg : List Nat) : List Nat :=
  let blocks := chunks64 (sha256Pad msg)
  let Hf := blocks.foldl sha256Compress sha256H0
  Hf.foldr (fun h acc => be32 h ++ acc) []

/-- Lowercase hex character for a nibble. -/
def hexChar (n : Nat) : Char :=
  if n < 10 then Char.ofNat (48 + n) else Char.ofNat (87 + n)

/-- Lowercase hex rendering of a byte sequence (`.hexdigest()`). -/
def hexOfBytes (bytes : List Nat) : String :=
  String.mk (bytes.foldr (fun b acc => hexChar (b / 16) :: hexChar (b % 16) :: acc) [])

/-- UTF-8 encoding of one code point. -/
def utf8EncodeCp (n : Nat) : List Nat :=
  if n < 128 then [n]
  else if n < 2048 then [192 + n / 64, 128 + n % 64]
  else if n < 65536 then [224 + n / 4096, 128 + n / 64 % 64, 128 + n % 64]
  else [240 + n / 262144, 128 + n / 4096 % 64, 128 + n / 64 % 64, 128 + n % 64]

/-- UTF-8 bytes of a string (`str.encode("utf-8")`). -/
def utf8Bytes (s : String) : List Nat :=
  s.toList.foldr (fun c acc => utf8EncodeCp c.toNat ++ acc) []

/-- `utils.make_content_hash`: SHA-256 hexdigest of
`normalize_text title ++ "||" ++ normalize_text url`. -/
def make_content_hash (title url : String) : String :=
  hexOfBytes (sha256Bytes (utf8Bytes (normalize_text title ++ "||" ++ normalize_text url)))

/-! ## Byte-order string comparison

SQLite compares `TEXT` values with `memcmp` on UTF-8 bytes and Python compares
`str` by code points; both agree with code-point lexicographic order, embedded
here as a structural comparison on `String.toList`. -/

/-- Code-point lexicographic three-way comparison of character lists. -/
def charsCmp : List Char → List Char → Ordering
  | [], [] => Ordering.eq
  | [], _ :: _ => Ordering.lt
  | _ :: _, [] => Ordering.gt
  | a :: xs, b :: ys =>
    if a.toNat < b.toNat then Ordering.lt
    else if b.toNat < a.toNat then Ordering.gt
    else charsCmp xs ys

/-- Three-way comparison of strings in byte order. -/
def strCmp (a b : String) : Ordering := charsCmp a.toList b.toList

/-- `Ordering.lt` and `Ordering.eq` count as `≤`. -/
def ordIsLe : Ordering → Bool
  | Ordering.gt => false
  | _ => true

/-- Boolean `a ≤ b` in byte order (the order used by `ORDER BY`/`>=` on ISO
timestamps and by Python string comparison). -/
def tsLe (a b : String) : Bool := ordIsLe (strCmp a b)

theorem charEq_of_toNat {a b : Char} (h : a.toNat = b.toNat) : a = b :=
  Char.ext (UInt32.ext h)

theorem charsCmp_eq_iff : ∀ x y : List Char, charsCmp x y = Ordering.eq ↔ x = y := by
  intro x
  induction x with
  | nil => intro y; cases y <;> simp [charsCmp]
  | cons a xs ih =>
    intro y
    cases y with
    | nil => simp [charsCmp]
    | cons b ys =>
      by_cases h1 : a.toNat < b.toNat
      · have hne : a ≠ b := fun he => by subst he; exact Nat.lt_irrefl _ h1
        simp [charsCmp, h1, hne]
      · by_cases h2 : b.toNat < a.toNat
        · have hne : a ≠ b := fun he => by subst he; exact Nat.lt_irrefl _ h2
          simp [charsCmp, h1, h2, hne]
        · have hab : a = b := charEq_of_toNat (Nat.le_antisymm (Nat.le_of_not_lt h2) (Nat.le_of_not_lt h1))
          subst hab
          simp [charsCmp, h1, ih ys]

theorem charsCmp_swap : ∀ x y : List Char, charsCmp x y = (charsCmp y x).swap := by
  intro x
  induction x with
  | nil => intro y; cases y <;> simp [charsCmp, Ordering.swap]
  | cons a xs ih =>
    intro y
    cases y with
    | nil => simp [charsCmp, Ordering.swap]
    | cons b ys =>
      by_cases h1 : a.toNat < b.toNat
      · have h2 : ¬ b.toNat < a.toNat := Nat.lt_asymm h1
        simp [charsCmp, h1, h2, Ordering.swap]
      · by_cases h2 : b.toNat < a.toNat
        · simp [charsCmp, h1, h2, Ordering.swap]
        · simp [charsCmp, h1, h2, ih ys]


theorem charsCmp_lt_trans :
    ∀ x y z : List Char, charsCmp x y = Ordering.lt → charsCmp y z = Ordering.lt →
      charsCmp x z = Ordering.lt := by
  intro x
  induction x with
  | nil =>
    intro y z hxy hyz
    cases y with
    | nil => simp [charsCmp] at hxy
    | cons b ys =>
      cases z with
      | nil => simp [charsCmp] at hyz
      | cons c zs => simp [charsCmp]
  | cons a xs ih =>
    intro y z hxy hyz
    cases y with
    | nil => simp [charsCmp] at hxy
    | cons b ys =>
      cases z with
      | nil => simp [charsCmp] at hyz
      | cons c zs =>
        simp only [charsCmp] at hxy hyz ⊢
        by_cases hab : a.toNat < b.toNat
        · by_cases hbc : b.toNat < c.toNat
          · have hac : a.toNat < c.toNat := Nat.lt_trans hab hbc
            simp [hac]
          · by_cases hcb : c.toNat < b.toNat
            · simp [hbc, hcb] at hyz
            · have hac : a.toNat < c.toNat := by omega
              simp [hac]
        · by_cases hba : b.toNat < a.toNat
          · simp [hab, hba] at hxy
          · simp only [if_neg hab, if_neg hba] at hxy
            by_cases hbc : b.toNat < c.toNat
            · have hac : a.toNat < c.toNat := by omega
              simp [hac]
            · by_cases hcb : c.toNat < b.toNat
              · simp [hbc, hcb] at hyz
              · simp only [if_neg hbc, if_neg hcb] at hyz
                have hac1 : ¬ a.toNat < c.toNat := by omega
                have hac2 : ¬ c.toNat < a.toNat := by omega
                simp only [if_neg hac1, if_neg hac2]
                exact ih ys zs hxy hyz

theorem swapEqGt {o : Ordering} : o.swap = Ordering.gt ↔ o = Ordering.lt := by
  cases o <;> simp [Ordering.swap]

/-- Boolean `x ≤ y` on character lists in code-point order. -/
def chLe (x y : List Char) : Bool := ordIsLe (charsCmp x y)

theorem chLe_total (x y : List Char) : chLe x y = true ∨ chLe y x = true := by
  unfold chLe
  rcases h : charsCmp x y with _ | _ | _
  · left; simp [h, ordIsLe]
  · left; simp [h, ordIsLe]
  · right
    have hs := charsCmp_swap x y
    rw [h] at hs
    have hyx : charsCmp y x = Ordering.lt := swapEqGt.mp hs.symm
    simp [hyx, ordIsLe]

theorem chLe_trans {x y z : List Char} (h1 : chLe x y = true) (h2 : chLe y z = true) :
    chLe x z = true := by
  unfold chLe at h1 h2 ⊢
  rcases hxy : charsCmp x y with _ | _ | _
  · rcases hyz : charsCmp y z with _ | _ | _
    · simp [charsCmp_lt_trans x y z hxy hyz, ordIsLe]
    · have := (charsCmp_eq_iff y z).mp hyz
      subst this
      simp [hxy, ordIsLe]
    · simp [hyz, ordIsLe] at h2
  · have := (charsCmp_eq_iff x y).mp hxy
    subst this
    exact h2
  · simp [hxy, ordIsLe] at h1

theorem chLe_antisymm {x y : List Char} (h1 : chLe x y = true) (h2 : chLe y x = true) :
    x = y := by
  unfold chLe at h1 h2
  rcases hxy : charsCmp x y with _ | _ | _
  · have hs := charsCmp_swap x y
    rw [hxy] at hs
    have hyx : charsCmp y x = Ordering.gt := by
      rcases hq : charsCmp y x with _ | _ | _ <;> rw [hq] at hs <;>
        simp [Ordering.swap] at hs
    simp [hyx, ordIsLe] at h2
  · exact (charsCmp_eq_iff x y).mp hxy
  · simp [hxy, ordIsLe] at h1

theorem chLe_nil_right {x : List Char} (h : chLe x [] = true) : x = [] := by
  cases x with
  | nil => rfl
  | cons c cs => simp [chLe, charsCmp, ordIsLe] at h

theorem tsLe_eq_chLe (a b : String) : tsLe a b = chLe a.toList b.toList := rfl

theorem tsLe_total (a b : String) : tsLe a b = true ∨ tsLe b a = true :=
  chLe_total a.toList b.toList

theorem tsLe_trans {a b c : String} (h1 : tsLe a b = true) (h2 : tsLe b c = true) :
    tsLe a c = true :=
  chLe_trans h1 h2

theorem tsLe_antisymm {a b : String} (h1 : tsLe a b = true) (h2 : tsLe b a = true) :
    a = b :=
  String.toList_inj.mp (chLe_antisymm h1 h2)

theorem tsLe_empty_right {a : String} (h : tsLe a "" = true) : a = "" :=
  String.toList_inj.mp (chLe_nil_right h)

/-! ## A stable insertion sort

`sortOrd le` models sorting with a boolean "may come first" relation; with a
total, transitive `le` its output is a sorted permutation of the input, which
pins it down uniquely once `le` is also antisymmetric (as in the indexed
relations used below), exactly like CPython's stable `sorted`. -/

/-- Insert `x` before the first element `y` with `le x y`. -/
def insertOrd (le : α → α → Bool) (x : α) : List α → List α
  | [] => [x]
  | y :: ys => if le x y then x :: y :: ys else y :: insertOrd le x ys

/-- Insertion sort with a boolean relation. -/
def sortOrd (le : α → α → Bool) : List α → List α
  | [] => []
  | x :: xs => insertOrd le x (sortOrd le xs)

theorem insertOrd_perm (le : α → α → Bool) (x : α) :
    ∀ l : List α, List.Perm (insertOrd le x l) (x :: l) := by
  intro l
  induction l with
  | nil => exact List.Perm.refl _
  | cons y ys ih =>
    by_cases h : le x y = true
    · simp [insertOrd, h]
    · simp only [insertOrd, if_neg h]
      exact (ih.cons y).trans (List.Perm.swap x y ys)

theorem sortOrd_perm (le : α → α → Bool) : ∀ l : List α, List.Perm (sortOrd le l) l := by
  intro l
  induction l with
  | nil => exact List.Perm.refl _
  | cons x xs ih => exact (insertOrd_perm le x (sortOrd le xs)).trans (ih.cons x)

theorem mem_insertOrd {le : α → α → Bool} {x z : α} {l : List α} :
    z ∈ insertOrd le x l ↔ z = x ∨ z ∈ l :=
  ((insertOrd_perm le x l).mem_iff).trans List.mem_cons

theorem pairwise_insertOrd {le : α → α → Bool}
    (htot : ∀ a b, le a b = true ∨ le b a = true)
    (htrans : ∀ a b c, le a b = true → le b c = true → le a c = true)
    (x : α) :
    ∀ l : List α, l.Pairwise (fun a b => le a b = true) →
      (insertOrd le x l).Pairwise (fun a b => le a b = true) := by
  intro l
  induction l with
  | nil => intro _; simp [insertOrd]
  | cons y ys ih =>
    intro h
    rcases List.pairwise_cons.mp h with ⟨hy, hys⟩
    by_cases hxy : le x y = true
    · simp only [insertOrd, if_pos hxy]
      refine List.pairwise_cons.mpr ⟨?_, h⟩
      intro z hz
      rcases List.mem_cons.mp hz with hz | hz
      · exact hz ▸ hxy
      · exact htrans x y z hxy (hy z hz)
    · have hyx : le y x = true := (htot x y).resolve_left hxy
      simp only [insertOrd, if_neg hxy]
      refine List.pairwise_cons.mpr ⟨?_, ih hys⟩
      intro z hz
      rcases mem_insertOrd.mp hz with hz | hz
      · exact hz ▸ hyx
      · exact hy z hz

theorem sortOrd_pairwise {le : α → α → Bool}
    (htot : ∀ a b, le a b = true ∨ le b a = true)
    (htrans : ∀ a b c, le a b = true → le b c = true → le a c = true) :
    ∀ l : List α, (sortOrd le l).Pairwise (fun a b => le a b = true) := by
  intro l
  induction l with
  | nil => simp [sortOrd]
  | cons x xs ih => exact pairwise_insertOrd htot htrans x (sortOrd le xs) ih

/-! ## Content store (`db.py`)

The `items` table is a list of `Row`s; `NOT NULL` columns are `String`,
nullable columns `Option String`.  `created_at` is supplied by the caller of
`insert_item` standing for sqlite's `datetime('now')` default. -/

/-- One persisted record of the `items` table. -/
structure Row where
  source : String
  source_item_id : Option String
  title : String
  url : String
  published_at : Option String
  summary : Option String
  content_hash : String
  created_at : String
deriving DecidableEq

/-- The seven column values supplied to the `INSERT` in `db.insert_item`. -/
structure ItemIn where
  source : String
  source_item_id : Option String
  title : String
  url : String
  published_at : Option String
  summary : Option String
  content_hash : String
deriving DecidableEq

/-- The row the `INSERT` would create (`created_at` defaulted to `now`). -/
def mkRow (now : String) (it : ItemIn) : Row :=
  ⟨it.source, it.source_item_id, it.title, it.url, it.published_at, it.summary,
   it.content_hash, now⟩

/-- Whether the `INSERT` would violate one of the unique indexes
`idx_items_url` / `idx_items_hash`. -/
def hasConflictB (store : List Row) (it : ItemIn) : Bool :=
  store.any (fun r => r.url == it.url || r.content_hash == it.content_hash)

/-- `db.insert_item`: attempt the insert; an `IntegrityError` from a unique
index is caught and reported as `false` with the store unchanged. -/
def insert_item (now : String) (store : List Row) (it : ItemIn) : Bool × List Row :=
  if hasConflictB store it then (false, store) else (true, store ++ [mkRow now it])

/-- `COALESCE(published_at, created_at)`. -/
def coalesceTs (r : Row) : String := r.published_at.getD r.created_at

/-- The `WHERE COALESCE(published_at, created_at) >= ?` window test
(sqlite compares `TEXT` in byte order). -/
def inWindowB (cutoff : String) (r : Row) : Bool := tsLe cutoff (coalesceTs r)

/-- `ORDER BY COALESCE(published_at, created_at) DESC`: `a` may precede `b`
iff `a`'s coalesced timestamp is at least `b`'s. -/
def rowLeDesc (a b : Row) : Bool := tsLe (coalesceTs b) (coalesceTs a)

/-- `db.get_items_since`: filter to the window, order by coalesced timestamp
descending (ties in unspecified order, as in sqlite). -/
def get_items_since (store : List Row) (cutoff : String) : List Row :=
  sortOrd rowLeDesc (store.filter (fun r => inWindowB cutoff r))

/-! ## Scoring (`utils.score_item`) -/

/-- Python's substring test `needle in hay` on code points. -/
def pyInStr (needle hay : String) : Bool :=
  needle.toList.IsInfix hay.toList |> decide

/-- `str.lower()` (character-wise lowering; agrees with Python on ASCII). -/
def pyLower (s : String) : String := String.mk (s.toList.map Char.toLower)

/-- `utils.contains_keywords`: some keyword, lowercased, is a substring of the
lowercased title. -/
def contains_keywords (title : String) (keywords : List String) : Bool :=
  keywords.any (fun k => pyInStr (pyLower k) (pyLower title))

/-- `utils.score_item` on a stored row: source weight (0 when the source is
not in the table), `+= 2` on a keyword hit, `+= 1` on "committee"/"hearing". -/
def score_item (item : Row) (source_weight : List (String × Int)) (keywords : List String) : Int :=
  let s := ((source_weight.lookup item.source).getD 0)
  let s := if contains_keywords item.title keywords then s + 2 else s
  let s := if pyInStr "committee" (pyLower item.title) || pyInStr "hearing" (pyLower item.title)
           then s + 1 else s
  s

/-- The scoring rule as the specification words it: weight looked up by
source (0 when absent), plus 2 for a case-insensitive keyword substring hit,
plus 1 when the title contains "committee" or "hearing" case-insensitively. -/
def score_spec (item : Row) (source_weight : List (String × Int)) (keywords : List String) : Int :=
  ((source_weight.lookup item.source).getD 0)
    + (if contains_keywords item.title keywords then 2 else 0)
    + (if pyInStr "committee" (pyLower item.title) || pyInStr "hearing" (pyLower item.title)
       then 1 else 0)

/-! ## Ranking sort (`digest.main`, lines 96-105)

`digest.main` annotates each row with `score_item` and calls
`sorted(items, key=lambda x: (score, published_at or created_at or ""), reverse=True)`.
CPython's `sorted(..., reverse=True)` is exactly the unique permutation that is
sorted by "key strictly greater, or key equal and original index smaller", so
the embedding sorts index-tagged rows by that total order. -/

/-- Python `a or b` for an optional string and a string default (falsy = empty). -/
def orFalsy (a : Option String) (b : String) : String :=
  match a with
  | some s => if s.isEmpty then b else s
  | none => b

/-- The recency component of the ranking key:
`x.get("published_at") or x.get("created_at") or ""`. -/
def pyTs (r : Row) : String := orFalsy r.published_at (orFalsy (some r.created_at) "")

/-- The full ranking key `(score, recency)`. -/
def pyKey (w : List (String × Int)) (k : List String) (r : Row) : Int × String :=
  (score_item r w k, pyTs r)

/-- Strict "greater" on ranking keys: reverse lexicographic comparison with
score primary and recency (byte order) secondary. -/
def keyGtB (k1 k2 : Int × String) : Bool :=
  decide (k2.1 < k1.1) || (decide (k1.1 = k2.1) && (tsLe k2.2 k1.2 && !(tsLe k1.2 k2.2)))

/-- `reverse=True` stable order on index-tagged rows: key strictly greater
first, ties by original position. -/
def pyLeIdx (w : List (String × Int)) (k : List String) (p q : Nat × Row) : Bool :=
  keyGtB (pyKey w k p.2) (pyKey w k q.2) ||
    (decide (pyKey w k p.2 = pyKey w k q.2) && decide (p.1 ≤ q.1))

/-- The sorted, index-tagged row list of `digest.main`. -/
def rankSortedIdx (w : List (String × Int)) (k : List String) (items : List Row) :
    List (Nat × Row) :=
  sortOrd (pyLeIdx w k) items.enum

/-- `items_sorted` of `digest.main`. -/
def rankSorted (w : List (String × Int)) (k : List String) (items : List Row) : List Row :=
  (rankSortedIdx w k items).map Prod.snd

/-- The ordering the specification claims, on index-tagged rows: descending by
`(score, COALESCE(published_at, created_at))` with score primary, the coalesced
timestamp as tie-break, and original insertion order as final tie-break. -/
def claimRel (w : List (String × Int)) (k : List String) (p q : Nat × Row) : Prop :=
  score_item q.2 w k < score_item p.2 w k ∨
    (score_item p.2 w k = score_item q.2 w k ∧
      ((tsLe (coalesceTs q.2) (coalesceTs p.2) = true ∧ coalesceTs p.2 ≠ coalesceTs q.2) ∨
        (coalesceTs p.2 = coalesceTs q.2 ∧ p.1 < q.1)))

/-! ## Summary post-processing (`summarizer_openai.py`) -/

/-- A generated bullet: text plus raw citation entries.  A citation entry is
`some v` for a Python `int` value `v` and `none` for a non-integer JSON value
(whose identity the code never inspects beyond `isinstance(s, int)`). -/
structure Bullet where
  text : String
  sources : List (Option Int)
deriving DecidableEq

/-- `[a-z0-9]` (the only characters `_tokenize`'s pattern matches). -/
def isTokChar (c : Char) : Bool :=
  (97 ≤ c.toNat && c.toNat ≤ 122) || (48 ≤ c.toNat && c.toNat ≤ 57)

/-- Maximal `[a-z0-9]+` runs of a character list (`re.findall`); `cur` holds
the current run reversed. -/
def tokenRunsGo (cur : List Char) : List Char → List String
  | [] => if cur.isEmpty then [] else [String.mk cur.reverse]
  | c :: rest =>
    if isTokChar c then tokenRunsGo (c :: cur) rest
    else if cur.isEmpty then tokenRunsGo [] rest
    else String.mk cur.reverse :: tokenRunsGo [] rest

/-- `_tokenize`: the set of `[a-z0-9]+` runs of the lowercased text, as a
duplicate-free list. -/
def tokenSet (s : String) : List String :=
  (tokenRunsGo [] (s.toList.map Char.toLower)).dedup

/-- The prefix of `l` before the first occurrence of `sep`
(`text.split(sep, 1)[0]`). -/
def splitFirst (sep : List Char) : List Char → List Char
  | [] => []
  | c :: rest => if sep.isPrefixOf (c :: rest) then [] else c :: splitFirst sep rest

/-- `_lead`: text before the first `" — "`, stripped. -/
def leadOf (text : String) : String :=
  String.mk (pyStrip (splitFirst " — ".toList text.toList))

/-- `{s for s in sources if isinstance(s, int)}` as a duplicate-free list. -/
def srcSet (l : List (Option Int)) : List Int := (l.filterMap id).dedup

/-- Cardinality of the intersection of two duplicate-free lists. -/
def interCard [DecidableEq α] (a b : List α) : Nat :=
  (a.filter (fun x => b.contains x)).length

/-- Cardinality of the union of two duplicate-free lists. -/
def unionCard [DecidableEq α] (a b : List α) : Nat :=
  a.length + (b.filter (fun x => !(a.contains x))).length

/-- `_is_near_duplicate`.  The float threshold tests `jaccard >= 0.62`,
`jaccard >= 0.45` and `source_overlap >= 0.8` are embedded as the exact
rational comparisons `100*i ≥ 62*u`, `100*i ≥ 45*u`, `10*i ≥ 8*min`. -/
def is_near_duplicate (candidate kept : Bullet) : Bool :=
  let ct := tokenSet (leadOf candidate.text)
  let kt := tokenSet (leadOf kept.text)
  if ct.isEmpty || kt.isEmpty then false
  else
    let i := interCard ct kt
    let u := unionCard ct kt
    let cs := srcSet candidate.sources
    let ks := srcSet kept.sources
    let overlapHigh :=
      if cs.isEmpty || ks.isEmpty then false
      else decide (10 * interCard cs ks ≥ 8 * min cs.length ks.length)
    decide (100 * i ≥ 62 * u) || (decide (100 * i ≥ 45 * u) && overlapHigh)

/-- The loop body of `_dedupe_bullets`, carrying the kept list. -/
def dedupeGo (kept : List Bullet) : List Bullet → List Bullet
  | [] => kept
  | b :: rest =>
    if b.text.isEmpty then dedupeGo kept rest
    else if kept.any (fun e => is_near_duplicate b e) then dedupeGo kept rest
    else dedupeGo (kept ++ [b]) rest

/-- `_dedupe_bullets`. -/
def dedupe_bullets (bullets : List Bullet) : List Bullet := dedupeGo [] bullets

/-- Claim C6 as stated: keep a candidate iff it is a near-duplicate of no
previously kept bullet (no other condition). -/
def claimDedupGoC6 (kept : List Bullet) : List Bullet → List Bullet
  | [] => kept
  | b :: rest =>
    if kept.any (fun e => is_near_duplicate b e) then claimDedupGoC6 kept rest
    else claimDedupGoC6 (kept ++ [b]) rest

/-- Claim C6's characterisation of the dedup output. -/
def claimDedupC6 (bullets : List Bullet) : List Bullet := claimDedupGoC6 [] bullets

/-- Amended C6: keep a candidate iff its text is non-empty and it is a
near-duplicate of no previously kept bullet. -/
def amendedDedupGoC6 (kept : List Bullet) : List Bullet → List Bullet
  | [] => kept
  | b :: rest =>
    if !b.text.isEmpty && !(kept.any (fun e => is_near_duplicate b e)) then
      amendedDedupGoC6 (kept ++ [b]) rest
    else amendedDedupGoC6 kept rest

/-- Amended C6's characterisation of the dedup output. -/
def amendedDedupC6 (bullets : List Bullet) : List Bullet := amendedDedupGoC6 [] bullets

/-- Citation entries that are integers in `1..N`, as a duplicate-free list. -/
def validSrcSet (N : Nat) (l : List (Option Int)) : List Int :=
  (l.filterMap (fun s =>
    match s with
    | some v => if 1 ≤ v ∧ v ≤ (N : Int) then some v else none
    | none => none)).dedup

/-- Claim C10 as stated: `_is_near_duplicate` with out-of-range citations also
ignored in the citation-overlap ratio. -/
def claimNearDupC10 (N : Nat) (candidate kept : Bullet) : Bool :=
  let ct := tokenSet (leadOf candidate.text)
  let kt := tokenSet (leadOf kept.text)
  if ct.isEmpty || kt.isEmpty then false
  else
    let i := interCard ct kt
    let u := unionCard ct kt
    let cs := validSrcSet N candidate.sources
    let ks := validSrcSet N kept.sources
    let overlapHigh :=
      if cs.isEmpty || ks.isEmpty then false
      else decide (10 * interCard cs ks ≥ 8 * min cs.length ks.length)
    decide (100 * i ≥ 62 * u) || (decide (100 * i ≥ 45 * u) && overlapHigh)

/-- The dedup loop under claim C10's reading. -/
def claimDedupGoC10 (N : Nat) (kept : List Bullet) : List Bullet → List Bullet
  | [] => kept
  | b :: rest =>
    if b.text.isEmpty then claimDedupGoC10 N kept rest
    else if kept.any (fun e => claimNearDupC10 N b e) then claimDedupGoC10 N kept rest
    else claimDedupGoC10 N (kept ++ [b]) rest

/-- `_dedupe_bullets` under claim C10's reading. -/
def claimDedupC10 (N : Nat) (bullets : List Bullet) : List Bullet :=
  claimDedupGoC10 N [] bullets

/-- One numbered source item as exposed to the generation step
(`trimmed_items`). -/
structure TrimmedItem where
  title : String
  source : String
  url : String
  text : String
  date : Option String
deriving DecidableEq

/-- One entry of the emitted `sources` list. -/
structure SourceEntry where
  n : Nat
  title : String
  url : String
  source : String
deriving DecidableEq

/-- The integer citations of one bullet that pass
`isinstance(s, int) and 1 <= s <= len(trimmed_items)`. -/
def validCites (N : Nat) (b : Bullet) : List Int :=
  b.sources.filterMap (fun s =>
    match s with
    | some v => if 1 ≤ v ∧ v ≤ (N : Int) then some v else none
    | none => none)

/-- The `used_sources` set of `summarize_updates` (as a list; only membership
is ever used). -/
def usedList (bullets : List Bullet) (N : Nat) : List Int :=
  bullets.foldr (fun b acc => validCites N b ++ acc) []

/-- The source-emitting loop of `summarize_updates`: walk the numbered items
and keep entry `i` iff `keep i`. -/
def buildEntries (keep : Nat → Bool) : List TrimmedItem → Nat → List SourceEntry
  | [], _ => []
  | it :: rest, i =>
    (if keep i then [⟨i, it.title, it.url, it.source⟩] else []) ++ buildEntries keep rest (i + 1)

/-- Lines 195-213 of `summarize_updates`: emit the numbered source entries
whose index is in the used-source set. -/
def attachSources (bullets : List Bullet) (items : List TrimmedItem) : List SourceEntry :=
  buildEntries (fun i => (usedList bullets items.length).contains ((i : Nat) : Int)) items 1

/-- Line 192 of `summarize_updates`: dedup then truncate to `max_bullets`. -/
def survivingBullets (bullets : List Bullet) (maxB : Nat) : List Bullet :=
  (dedupe_bullets bullets).take maxB

/-- Claim C7's test: index `i` appears in the union of the bullets' `sources`
arrays. -/
def citedB (bullets : List Bullet) (i : Nat) : Bool :=
  bullets.any (fun b => b.sources.contains (some ((i : Nat) : Int)))

/-- Claim C7's description of the emitted sources list. -/
def specSourcesC7 (bullets : List Bullet) (items : List TrimmedItem) : List SourceEntry :=
  buildEntries (fun i => citedB bullets i) items 1

/-! ## Per-recipient digest delivery (`digest.main`, lines 139-233)

The external generation call for a recipient is abstracted as a function
returning `Except.error` when `summarize_updates` raises (API failure, bad
JSON, missing key) and `Except.ok` otherwise.  `digest.main` first builds all
summaries, returning exit code 1 from `main` on the first failure, and only
then loops over subscribers sending mail. -/

/-- An active subscriber as consumed by the digest run. -/
structure Subscriber where
  email : String
  unsubscribe_token : String
deriving DecidableEq

/-- Whether a generation result is a success. -/
def genOk : Except String α → Bool
  | Except.ok _ => true
  | Except.error _ => false

/-- The first loop of `digest.main`: build `summaries_by_email`, aborting the
whole function (exit code 1) on the first generation failure. -/
def buildSummaries (gen : Subscriber → Except String α) :
    List Subscriber → Except String (List (String × α))
  | [] => Except.ok []
  | s :: rest =>
    match gen s with
    | Except.error e => Except.error e
    | Except.ok v =>
      match buildSummaries gen rest with
      | Except.error e => Except.error e
      | Except.ok tl => Except.ok ((s.email, v) :: tl)

/-- `digest.main` from the subscriber fetch onwards: returns the list of
recipients that are sent a digest and the process exit code. -/
def digestRun (gen : Subscriber → Except String α) (subs : List Subscriber) :
    List String × Nat :=
  match buildSummaries gen subs with
  | Except.error _ => ([], 1)
  | Except.ok _ => (subs.map (fun s => s.email), 0)

/-! ## Feed timestamps (`collect.parse_feed` lines 121-122, `utils.to_iso_datetime`) -/

/-- `utils.to_iso_datetime` with the external `dateutil` parser abstracted:
`parse` returns the ISO-8601 UTC rendering when `dateutil.parser.parse`
succeeds (including the UTC localisation the source performs) and `none` when
it raises; `now` is the current UTC time.  On parse failure the source returns
`datetime.now(timezone.utc).isoformat()`. -/
def to_iso_datetime (parse : String → Option String) (now : String) (value : String) : String :=
  match parse value with
  | some t => t
  | none => now

/-- Lines 121-122 of `collect.parse_feed`:
`published_raw = entry.get("published") or entry.get("updated") or ""` then
`published_at = to_iso_datetime(published_raw) if published_raw else None`. -/
def feedPublishedAt (parse : String → Option String) (now : String)
    (published updated : Option String) : Option String :=
  let raw := orFalsy published (orFalsy updated "")
  if raw.isEmpty then none else some (to_iso_datetime parse now raw)

/-! ## Concrete fixtures used by examples and witnesses -/

/-- A fresh item for the insert witness. -/
def itemC1 : ItemIn :=
  ⟨"council_rss", none, "Budget hearing", "http://example.org/budget", none, none, "hash-budget"⟩

/-- Example row published 10 days before the window end. -/
def exRow10 : Row :=
  ⟨"council_rss", none, "ten days ago", "http://example.org/ten",
   some "2026-10-02T00:00:00+00:00", none, "hash-ten", "2026-10-02T01:00:00+00:00"⟩

/-- Example row published 6 days before the window end. -/
def exRow6 : Row :=
  ⟨"council_rss", none, "six days ago", "http://example.org/six",
   some "2026-10-06T00:00:00+00:00", none, "hash-six", "2026-10-06T01:00:00+00:00"⟩

/-- Example row published 1 day before the window end. -/
def exRow1 : Row :=
  ⟨"council_rss", none, "one day ago", "http://example.org/one",
   some "2026-10-11T00:00:00+00:00", none, "hash-one", "2026-10-11T01:00:00+00:00"⟩

/-- First housing bullet of the spec's dedup example. -/
def housingBullet1 : Bullet := ⟨"Council passes housing bill — vote was 12-1", [some 1]⟩

/-- Second housing bullet of the spec's dedup example. -/
def housingBullet2 : Bullet := ⟨"Council passes the housing bill — committee approved", [some 2]⟩

/-- A bullet with empty text (a falsy `text` value in the source). -/
def emptyBullet : Bullet := ⟨"", []⟩

/-! ## Claim C1 -/

/-- Claim C1: `insert_item` returns `true` and appends exactly one record when
no persisted record holds the item's url or content hash; on a url or hash
collision it returns `false` and leaves the store unchanged; and re-inserting
the same item always reports `false` without adding a second record. -/
theorem insert_item_correct (now now2 : String) (store : List Row) (it : ItemIn) :
    (hasConflictB store it = false →
      insert_item now store it = (true, store ++ [mkRow now it])) ∧
    (hasConflictB store it = true → insert_item now store it = (false, store)) ∧
    insert_item now2 (insert_item now store it).2 it = (false, (insert_item now store it).2) := by
  refine ⟨?_, ?_, ?_⟩
  · intro h; simp [insert_item, h]
  · intro h; simp [insert_item, h]
  · cases h : hasConflictB store it with
    | false =>
      have h2 : hasConflictB (store ++ [mkRow now it]) it = true := by
        simp [hasConflictB, List.any_append, mkRow]
      simp [insert_item, h, h2]
    | true => simp [insert_item, h]

/-- Witness for C1 at a concrete item and the empty store. -/
theorem insert_item_correct_witness :
    hasConflictB [] itemC1 = false ∧
    insert_item "2026-10-01T00:00:00" [] itemC1
      = (true, [mkRow "2026-10-01T00:00:00" itemC1]) ∧
    insert_item "2026-10-02T00:00:00" (insert_item "2026-10-01T00:00:00" [] itemC1).2 itemC1
      = (false, (insert_item "2026-10-01T00:00:00" [] itemC1).2) :=
  ⟨by decide,
   (insert_item_correct "2026-10-01T00:00:00" "2026-10-02T00:00:00" [] itemC1).1 (by decide),
   (insert_item_correct "2026-10-01T00:00:00" "2026-10-02T00:00:00" [] itemC1).2.2⟩

/-! ## Claim C2 -/

/-- Claim C2: `make_content_hash` depends only on the normalized forms of
title and url. -/
theorem make_content_hash_normalized (t1 t2 u1 u2 : String)
    (h1 : normalize_text t1 = normalize_text t2)
    (h2 : normalize_text u1 = normalize_text u2) :
    make_content_hash t1 u1 = make_content_hash t2 u2 := by
  simp only [make_content_hash, h1, h2]

/-- Witness for C2 at the spec's concrete pair. -/
theorem make_content_hash_normalized_witness :
    normalize_text "DC Council Meeting" = normalize_text "  DC COUNCIL MEETING!! " ∧
    normalize_text "http://x.com/a" = normalize_text "http://x.com/a" ∧
    make_content_hash "DC Council Meeting" "http://x.com/a"
      = make_content_hash "  DC COUNCIL MEETING!! " "http://x.com/a" :=
  ⟨by decide, rfl,
   make_content_hash_normalized "DC Council Meeting" "  DC COUNCIL MEETING!! "
     "http://x.com/a" "http://x.com/a" (by decide) rfl⟩

/-! ## Claim C5 -/

/-- Claim C5: `score_item` computes exactly source weight (0 when absent)
plus 2 for a case-insensitive keyword substring hit plus 1 when the title
contains "committee" or "hearing" case-insensitively; as a Lean function it is
pure by construction. -/
theorem score_item_eq_spec (item : Row) (w : List (String × Int)) (k : List String) :
    score_item item w k = score_spec item w k := by
  unfold score_item score_spec
  by_cases h1 : contains_keywords item.title k <;>
    by_cases h2 :
      (pyInStr "committee" (pyLower item.title) || pyInStr "hearing" (pyLower item.title)) = true <;>
    simp [h1, h2]

/-! ## Claim C3 -/

/-- Claim C3: `get_items_since` returns exactly the stored rows whose
coalesced timestamp is at or after the cutoff, ordered descending by that
timestamp; on the spec's T-10d/T-6d/T-1d example with a 7-day cutoff it
returns exactly the T-6d and T-1d rows, newest first. -/
theorem get_items_since_correct (store : List Row) (cutoff : String) :
    List.Perm (get_items_since store cutoff) (store.filter (fun r => inWindowB cutoff r)) ∧
    (get_items_since store cutoff).Pairwise
      (fun a b => tsLe (coalesceTs b) (coalesceTs a) = true) ∧
    get_items_since [exRow10, exRow6, exRow1] "2026-10-05T00:00:00+00:00" = [exRow1, exRow6] := by
  refine ⟨sortOrd_perm _ _, ?_, by decide⟩
  have htot : ∀ a b : Row, rowLeDesc a b = true ∨ rowLeDesc b a = true := fun a b =>
    tsLe_total (coalesceTs b) (coalesceTs a)
  have htrans : ∀ a b c : Row,
      rowLeDesc a b = true → rowLeDesc b c = true → rowLeDesc a c = true := fun a b c h1 h2 =>
    tsLe_trans h2 h1
  exact sortOrd_pairwise htot htrans _

/-! ## Claim C6 -/

/-- Counterexample to C6 as stated: a bullet with empty text is dropped by
`_dedupe_bullets` even though it is a near-duplicate of no previously kept
bullet, so "keeps a candidate iff it is not a near-duplicate of a kept bullet"
fails at this input. -/
theorem dedupe_bullets_claim_counterexample :
    dedupe_bullets [emptyBullet] = [] ∧ claimDedupC6 [emptyBullet] = [emptyBullet] := by
  decide

theorem dedupeGo_eq_amendedGo :
    ∀ (bs : List Bullet) (kept : List Bullet), dedupeGo kept bs = amendedDedupGoC6 kept bs := by
  intro bs
  induction bs with
  | nil => intro kept; rfl
  | cons b rest ih =>
    intro kept
    by_cases h1 : b.text.isEmpty = true <;>
      by_cases h2 : (kept.any (fun e => is_near_duplicate b e)) = true <;>
      simp [dedupeGo, amendedDedupGoC6, h1, h2, ih]

theorem dedupeGo_sublist :
    ∀ (bs : List Bullet) (kept : List Bullet),
      ∃ t, dedupeGo kept bs = kept ++ t ∧ t.Sublist bs := by
  intro bs
  induction bs with
  | nil => intro kept; exact ⟨[], by simp [dedupeGo]⟩
  | cons b rest ih =>
    intro kept
    by_cases h1 : b.text.isEmpty = true
    · obtain ⟨t, ht, hs⟩ := ih kept
      exact ⟨t, by simp [dedupeGo, h1, ht], hs.cons b⟩
    · by_cases h2 : (kept.any (fun e => is_near_duplicate b e)) = true
      · obtain ⟨t, ht, hs⟩ := ih kept
        exact ⟨t, by simp [dedupeGo, h1, h2, ht], hs.cons b⟩
      · obtain ⟨t, ht, hs⟩ := ih (kept ++ [b])
        refine ⟨b :: t, ?_, hs.cons₂ b⟩
        simp [dedupeGo, h1, h2, ht]

/-- Amended C6: `_dedupe_bullets` keeps a candidate iff its text is non-empty
and it is a near-duplicate of no previously kept bullet; the output is an
order-preserving sublist of the input (first occurrence wins), and the spec's
housing-bill pair collapses to its first element. -/
theorem dedupe_bullets_amended (bullets : List Bullet) :
    dedupe_bullets bullets = amendedDedupC6 bullets ∧
    (dedupe_bullets bullets).Sublist bullets ∧
    dedupe_bullets [housingBullet1, housingBullet2] = [housingBullet1] := by
  refine ⟨dedupeGo_eq_amendedGo bullets [], ?_, by decide⟩
  obtain ⟨t, ht, hs⟩ := dedupeGo_sublist bullets []
  rw [dedupe_bullets, ht]
  simpa using hs

/-! ## Claim C7 -/

theorem mem_validCites {N : Nat} {v : Int} {b : Bullet} :
    v ∈ validCites N b ↔ some v ∈ b.sources ∧ (1 ≤ v ∧ v ≤ (N : Int)) := by
  simp only [validCites, List.mem_filterMap]
  constructor
  · rintro ⟨s, hs, hf⟩
    rcases s with _ | w
    · simp at hf
    · by_cases hr : 1 ≤ w ∧ w ≤ (N : Int)
      · simp only [if_pos hr] at hf
        injection hf with hv
        subst hv
        exact ⟨hs, hr⟩
      · simp [if_neg hr] at hf
  · rintro ⟨hs, hr⟩
    exact ⟨some v, hs, by simp [hr]⟩

theorem mem_usedList {N : Nat} {v : Int} :
    ∀ bullets : List Bullet,
      v ∈ usedList bullets N ↔ ∃ b ∈ bullets, some v ∈ b.sources ∧ (1 ≤ v ∧ v ≤ (N : Int)) := by
  intro bullets
  induction bullets with
  | nil => simp [usedList]
  | cons b bs ih =>
    rw [show usedList (b :: bs) N = validCites N b ++ usedList bs N from rfl, List.mem_append]
    constructor
    · rintro (h | h)
      · obtain ⟨hs, hr⟩ := mem_validCites.mp h
        exact ⟨b, List.mem_cons_self _ _, hs, hr⟩
      · obtain ⟨b', hb', rest⟩ := ih.mp h
        exact ⟨b', List.mem_cons_of_mem _ hb', rest⟩
    · rintro ⟨b', hb', hs, hr⟩
      rcases List.mem_cons.mp hb' with rfl | hb'
      · exact Or.inl (mem_validCites.mpr ⟨hs, hr⟩)
      · exact Or.inr (ih.mpr ⟨b', hb', hs, hr⟩)

theorem used_eq_cited (bullets : List Bullet) (N i : Nat) (h1 : 1 ≤ i) (h2 : i ≤ N) :
    (usedList bullets N).contains ((i : Int)) = citedB bullets i := by
  have hmem : ((i : Int) ∈ usedList bullets N) ↔ ∃ b ∈ bullets, some ((i : Int)) ∈ b.sources := by
    rw [mem_usedList]
    constructor
    · rintro ⟨b, hb, hsrc, _, _⟩
      exact ⟨b, hb, hsrc⟩
    · rintro ⟨b, hb, hsrc⟩
      refine ⟨b, hb, hsrc, ?_, ?_⟩
      · exact_mod_cast h1
      · exact_mod_cast h2
  have hcited : citedB bullets i = true ↔ ∃ b ∈ bullets, some ((i : Int)) ∈ b.sources := by
    simp [citedB, List.any_eq_true, List.elem_iff]
  cases hc : citedB bullets i with
  | true => exact List.elem_iff.mpr (hmem.mpr (hcited.mp hc))
  | false =>
    cases hu : (usedList bullets N).contains ((i : Int)) with
    | false => rfl
    | true =>
      have hmem2 : (i : Int) ∈ usedList bullets N := List.elem_iff.mp hu
      exact absurd (hcited.mpr (hmem.mp hmem2)) (by simp [hc])

theorem buildEntries_congr (c1 c2 : Nat → Bool) :
    ∀ (items : List TrimmedItem) (i0 : Nat),
      (∀ j, i0 ≤ j → j < i0 + items.length → c1 j = c2 j) →
      buildEntries c1 items i0 = buildEntries c2 items i0 := by
  intro items
  induction items with
  | nil => intro i0 _; rfl
  | cons it rest ih =>
    intro i0 h
    have h0 : c1 i0 = c2 i0 := h i0 le_rfl (by simp)
    have hrest := ih (i0 + 1) (fun j hj1 hj2 => h j (by omega) (by simp at hj2 ⊢; omega))
    simp only [buildEntries, h0, hrest]

theorem buildEntries_mem_range (keep : Nat → Bool) :
    ∀ (items : List TrimmedItem) (i0 : Nat) (e : SourceEntry),
      e ∈ buildEntries keep items i0 → i0 ≤ e.n ∧ e.n < i0 + items.length := by
  intro items
  induction items with
  | nil => intro i0 e h; simp [buildEntries] at h
  | cons it rest ih =>
    intro i0 e h
    simp only [buildEntries, List.mem_append] at h
    rcases h with h | h
    · by_cases hk : keep i0 = true
      · rw [if_pos hk] at h
        simp only [List.mem_singleton] at h
        subst h
        simp
      · simp [if_neg hk] at h
    · have := ih (i0 + 1) e h
      constructor <;> [omega; (simp only [List.length_cons]; omega)]

/-- The five numbered source items of the spec's pruning example. -/
def exItemsC7 : List TrimmedItem :=
  [⟨"Title one", "council_rss", "http://example.org/1", "", none⟩,
   ⟨"Title two", "granicus_rss", "http://example.org/2", "", none⟩,
   ⟨"Title three", "youtube", "http://example.org/3", "", none⟩,
   ⟨"Title four", "google_alerts", "http://example.org/4", "", none⟩,
   ⟨"Title five", "council_rss", "http://example.org/5", "", none⟩]

/-- Two non-overlapping bullets citing sources 1 and 3 only. -/
def exBulletsC7 : List Bullet :=
  [⟨"Council passes housing bill — details follow", [some 1]⟩,
   ⟨"Mayor signs transit measure — more detail", [some 3]⟩]

/-- Claim C7: after dedup and truncation the emitted sources list is exactly
the original numbered entries whose index appears in the union of the
surviving bullets' `sources` arrays, preserving numbering and order; citing
only {1,3} of 5 sources emits exactly entries 1 and 3 in that order. -/
theorem attachSources_spec (bullets : List Bullet) (maxB : Nat) (items : List TrimmedItem) :
    attachSources (survivingBullets bullets maxB) items
      = specSourcesC7 (survivingBullets bullets maxB) items ∧
    attachSources (survivingBullets exBulletsC7 8) exItemsC7
      = [⟨1, "Title one", "http://example.org/1", "council_rss"⟩,
         ⟨3, "Title three", "http://example.org/3", "youtube"⟩] := by
  constructor
  · unfold attachSources specSourcesC7
    apply buildEntries_congr
    intro j hj1 hj2
    exact used_eq_cited _ items.length j hj1 (by omega)
  · decide

/-! ## Claim C10 -/

/-- A bullet with its non-integer citation entries removed. -/
def dropNonIntCites (b : Bullet) : Bullet :=
  ⟨b.text, b.sources.filter (fun s => s.isSome)⟩

/-- A bullet with only its citations that are integers in `1..N` kept. -/
def keepValidCites (N : Nat) (b : Bullet) : Bullet :=
  ⟨b.text, b.sources.filter (fun s =>
    match s with
    | some v => decide (1 ≤ v ∧ v ≤ (N : Int))
    | none => false)⟩

theorem srcSet_filter_isSome (l : List (Option Int)) :
    srcSet (l.filter (fun s => s.isSome)) = srcSet l := by
  unfold srcSet
  congr 1
  induction l with
  | nil => rfl
  | cons s rest ih => rcases s with _ | v <;> simp [ih]

theorem validCites_keepValid (N : Nat) (b : Bullet) :
    validCites N (keepValidCites N b) = validCites N b := by
  unfold validCites keepValidCites
  induction b.sources with
  | nil => rfl
  | cons s rest ih =>
    rcases s with _ | v
    · simpa using ih
    · by_cases hr : 1 ≤ v ∧ v ≤ (N : Int) <;> simp [hr] at ih ⊢ <;> exact ih

theorem usedList_keepValid (N : Nat) :
    ∀ bullets : List Bullet, usedList (bullets.map (keepValidCites N)) N = usedList bullets N := by
  intro bullets
  induction bullets with
  | nil => rfl
  | cons b bs ih =>
    rw [List.map_cons,
      show usedList (keepValidCites N b :: bs.map (keepValidCites N)) N
        = validCites N (keepValidCites N b) ++ usedList (bs.map (keepValidCites N)) N from rfl,
      show usedList (b :: bs) N = validCites N b ++ usedList bs N from rfl,
      validCites_keepValid, ih]

/-- First bullet whose only citation, 9, is out of range for 5 items. -/
def oorBullet1 : Bullet := ⟨"alpha beta gamma delta — first item", [some 9]⟩

/-- Second bullet, lead Jaccard 3/5 against the first, same out-of-range
citation. -/
def oorBullet2 : Bullet := ⟨"alpha beta gamma epsilon — second item", [some 9]⟩

/-- Counterexample to C10 as stated: with 5 items, two bullets whose lead
Jaccard is 3/5 (between 0.45 and 0.62) and whose only citation is the
out-of-range integer 9 are collapsed by `_dedupe_bullets` (the overlap ratio
counts the out-of-range citation), while under the claim's reading — ignoring
out-of-range citations in the overlap ratio — both would be kept. -/
theorem citation_claim_counterexample :
    dedupe_bullets [oorBullet1, oorBullet2] = [oorBullet1] ∧
    claimDedupC10 5 [oorBullet1, oorBullet2] = [oorBullet1, oorBullet2] := by
  decide

/-- Amended C10: non-integer citation entries are ignored by
`_is_near_duplicate` and by the source-attachment step (and no embedded
operation can fail); out-of-range integer citations are ignored when the
used-source set is computed — every emitted entry's index lies in `1..N` — but
they do participate in the citation-overlap ratio. -/
theorem citation_handling_amended :
    (∀ c k : Bullet,
      is_near_duplicate (dropNonIntCites c) (dropNonIntCites k) = is_near_duplicate c k) ∧
    (∀ (bullets : List Bullet) (items : List TrimmedItem),
      attachSources (bullets.map (keepValidCites items.length)) items
        = attachSources bullets items) ∧
    (∀ (bullets : List Bullet) (items : List TrimmedItem) (e : SourceEntry),
      e ∈ attachSources bullets items → 1 ≤ e.n ∧ e.n ≤ items.length) := by
  refine ⟨?_, ?_, ?_⟩
  · intro c k
    simp only [is_near_duplicate, dropNonIntCites, srcSet_filter_isSome]
  · intro bullets items
    unfold attachSources
    rw [usedList_keepValid]
  · intro bullets items e h
    have := buildEntries_mem_range _ items 1 e h
    omega

/-- A bullet citing source 1 of a one-item list. -/
def c10WitBullet : Bullet := ⟨"Transit update — detail", [some 1]⟩

/-- A one-item numbered source list. -/
def c10WitItems : List TrimmedItem :=
  [⟨"Title one", "council_rss", "http://example.org/1", "", none⟩]

/-- The emitted entry for the C10 witness. -/
def c10WitEntry : SourceEntry := ⟨1, "Title one", "http://example.org/1", "council_rss"⟩

/-- Witness for the amended C10 at a concrete membership. -/
theorem citation_handling_amended_witness :
    c10WitEntry ∈ attachSources [c10WitBullet] c10WitItems ∧
    1 ≤ c10WitEntry.n ∧ c10WitEntry.n ≤ c10WitItems.length :=
  ⟨by decide,
   (citation_handling_amended.2.2 [c10WitBullet] c10WitItems c10WitEntry (by decide)).1,
   (citation_handling_amended.2.2 [c10WitBullet] c10WitItems c10WitEntry (by decide)).2⟩

/-! ## Claim C8 -/

theorem buildSummaries_ok {α : Type} (gen : Subscriber → Except String α) :
    ∀ subs : List Subscriber, (∀ s ∈ subs, genOk (gen s) = true) →
      ∃ l, buildSummaries gen subs = Except.ok l := by
  intro subs
  induction subs with
  | nil => intro _; exact ⟨[], rfl⟩
  | cons s rest ih =>
    intro h
    have hs := h s (List.mem_cons_self _ _)
    obtain ⟨tl, htl⟩ := ih (fun t ht => h t (List.mem_cons_of_mem _ ht))
    cases hg : gen s with
    | error e => rw [hg] at hs; simp [genOk] at hs
    | ok v => exact ⟨(s.email, v) :: tl, by simp [buildSummaries, hg, htl]⟩

theorem buildSummaries_err {α : Type} (gen : Subscriber → Except String α) :
    ∀ subs : List Subscriber, (∃ s ∈ subs, genOk (gen s) = false) →
      ∃ e, buildSummaries gen subs = Except.error e := by
  intro subs
  induction subs with
  | nil => rintro ⟨s, hs, _⟩; simp at hs
  | cons s rest ih =>
    rintro ⟨t, ht, hfail⟩
    cases hg : gen s with
    | error e => exact ⟨e, by simp [buildSummaries, hg]⟩
    | ok v =>
      rcases List.mem_cons.mp ht with rfl | ht
      · rw [hg] at hfail; simp [genOk] at hfail
      · obtain ⟨e, he⟩ := ih ⟨t, ht, hfail⟩
        exact ⟨e, by simp [buildSummaries, hg, he]⟩

/-- Amended C8: the digest run is all-or-nothing — when generation succeeds
for every subscriber each one is sent a digest and the run exits 0; when it
fails for any subscriber the run aborts with exit code 1 before any send, so
no subscriber (neither the failed one nor any other) receives a digest. -/
theorem digestRun_all_or_nothing {α : Type} (gen : Subscriber → Except String α)
    (subs : List Subscriber) :
    ((∀ s ∈ subs, genOk (gen s) = true) →
      digestRun gen subs = (subs.map (fun s => s.email), 0)) ∧
    ((∃ s ∈ subs, genOk (gen s) = false) → digestRun gen subs = ([], 1)) := by
  constructor
  · intro h
    obtain ⟨l, hl⟩ := buildSummaries_ok gen subs h
    simp [digestRun, hl]
  · intro h
    obtain ⟨e, he⟩ := buildSummaries_err gen subs h
    simp [digestRun, he]

/-- Subscriber A of the C8 fixtures. -/
def subA : Subscriber := ⟨"a@example.com", "tokA"⟩

/-- Subscriber B of the C8 fixtures. -/
def subB : Subscriber := ⟨"b@example.com", "tokB"⟩

/-- A generation step that succeeds for every subscriber. -/
def genAllOk : Subscriber → Except String String := fun _ => Except.ok "summary"

/-- A generation step that fails exactly for subscriber A (standing for a
`summarize_updates` exception such as unparseable model output). -/
def genFailA : Subscriber → Except String String := fun s =>
  if s.email = "a@example.com" then Except.error "Model did not return valid JSON" else
    Except.ok "summary"

/-- Counterexample to C8 as stated: subscriber B's generation succeeds, yet
because subscriber A's generation fails the whole run exits 1 and B is sent
nothing — one recipient's failure does affect the other recipients. -/
theorem digestRun_counterexample :
    genOk (genFailA subB) = true ∧ digestRun genFailA [subA, subB] = ([], 1) := by
  decide

/-- Witness for the amended C8 on the all-success side. -/
theorem digestRun_all_or_nothing_witness :
    (∀ s ∈ [subA, subB], genOk (genAllOk s) = true) ∧
    digestRun genAllOk [subA, subB] = (["a@example.com", "b@example.com"], 0) :=
  ⟨by decide, (digestRun_all_or_nothing genAllOk [subA, subB]).1 (by decide)⟩

/-! ## Claim C9 -/

/-- A parser value standing for `dateutil.parser.parse` at inputs it cannot
parse (where the library raises). -/
def parseFailC9 : String → Option String := fun _ => none

/-- A parser value standing for `dateutil.parser.parse` at one parseable
RFC-2822 input, returning its ISO-8601 UTC rendering. -/
def parseOkC9 : String → Option String := fun s =>
  if s = "Mon, 06 Oct 2025 12:00:00 GMT" then some "2025-10-06T12:00:00+00:00" else none

/-- Counterexample to C9 as stated: an entry whose `published` text cannot be
parsed as a date yields `published_at = now` (the current UTC time), not an
absent value. -/
theorem feedPublishedAt_counterexample :
    feedPublishedAt parseFailC9 "2026-10-12T00:00:00+00:00" (some "not a parseable date") none
      = some "2026-10-12T00:00:00+00:00" ∧
    feedPublishedAt parseFailC9 "2026-10-12T00:00:00+00:00" (some "not a parseable date") none
      ≠ none := by
  decide

/-- Amended C9: `publishedAt` is taken from `published`, falling back to
`updated`, and is absent exactly when both are missing or empty; when the
timestamp text parses, its parsed ISO rendering is stored; when it does not
parse, the current UTC time is stored instead of an absent value. -/
theorem feedPublishedAt_amended (parse : String → Option String) (now : String)
    (published updated : Option String) :
    (feedPublishedAt parse now published updated = none ↔
      (orFalsy published (orFalsy updated "")).isEmpty = true) ∧
    (∀ t, parse (orFalsy published (orFalsy updated "")) = some t →
      (orFalsy published (orFalsy updated "")).isEmpty = false →
      feedPublishedAt parse now published updated = some t) ∧
    (parse (orFalsy published (orFalsy updated "")) = none →
      (orFalsy published (orFalsy updated "")).isEmpty = false →
      feedPublishedAt parse now published updated = some now) := by
  refine ⟨?_, ?_, ?_⟩
  · by_cases h : (orFalsy published (orFalsy updated "")).isEmpty = true
    · simp [feedPublishedAt, h]
    · simp [feedPublishedAt, h]
  · intro t hp hne
    simp [feedPublishedAt, to_iso_datetime, hne, hp]
  · intro hp hne
    simp [feedPublishedAt, to_iso_datetime, hne, hp]

/-- Witness for the amended C9 at a parseable `published` value. -/
theorem feedPublishedAt_amended_witness :
    parseOkC9 (orFalsy (some "Mon, 06 Oct 2025 12:00:00 GMT") (orFalsy none ""))
      = some "2025-10-06T12:00:00+00:00" ∧
    (orFalsy (some "Mon, 06 Oct 2025 12:00:00 GMT") (orFalsy none "")).isEmpty = false ∧
    feedPublishedAt parseOkC9 "2026-10-12T00:00:00+00:00"
      (some "Mon, 06 Oct 2025 12:00:00 GMT") none = some "2025-10-06T12:00:00+00:00" :=
  ⟨by decide, by decide,
   (feedPublishedAt_amended parseOkC9 "2026-10-12T00:00:00+00:00"
     (some "Mon, 06 Oct 2025 12:00:00 GMT") none).2.1 "2025-10-06T12:00:00+00:00"
     (by decide) (by decide)⟩

/-! ## Claim C4 -/

theorem tsLe_refl (a : String) : tsLe a a = true := by
  unfold tsLe strCmp
  rw [(charsCmp_eq_iff _ _).mpr rfl]
  rfl

/-- Strict "ranking key of `a` greater than ranking key of `b`" as a
proposition. -/
def kGT (w : List (String × Int)) (k : List String) (a b : Row) : Prop :=
  score_item b w k < score_item a w k ∨
    (score_item a w k = score_item b w k ∧
      tsLe (pyTs b) (pyTs a) = true ∧ tsLe (pyTs a) (pyTs b) = false)

theorem keyGtB_iff (w : List (String × Int)) (k : List String) (a b : Row) :
    keyGtB (pyKey w k a) (pyKey w k b) = true ↔ kGT w k a b := by
  simp [keyGtB, pyKey, kGT, Bool.or_eq_true, Bool.and_eq_true, decide_eq_true_eq,
    Bool.not_eq_true']

theorem pyLeIdx_iff (w : List (String × Int)) (k : List String) (p q : Nat × Row) :
    pyLeIdx w k p q = true ↔
      (kGT w k p.2 q.2 ∨ (pyKey w k p.2 = pyKey w k q.2 ∧ p.1 ≤ q.1)) := by
  rw [pyLeIdx, Bool.or_eq_true, Bool.and_eq_true, keyGtB_iff]
  simp [decide_eq_true_eq]

theorem kGT_trans {w : List (String × Int)} {k : List String} {a b c : Row}
    (h1 : kGT w k a b) (h2 : kGT w k b c) : kGT w k a c := by
  rcases h1 with h1 | ⟨he1, hts1, hnts1⟩ <;> rcases h2 with h2 | ⟨he2, hts2, hnts2⟩
  · exact Or.inl (lt_trans h2 h1)
  · exact Or.inl (he2 ▸ h1)
  · exact Or.inl (by rw [he1]; exact h2)
  · refine Or.inr ⟨he1.trans he2, tsLe_trans hts2 hts1, ?_⟩
    cases hac : tsLe (pyTs a) (pyTs c) with
    | false => rfl
    | true =>
      have := tsLe_trans hac hts2
      rw [hnts1] at this
      cases this

theorem kGT_key_right {w : List (String × Int)} {k : List String} {a b c : Row}
    (h : kGT w k a b) (he : pyKey w k b = pyKey w k c) : kGT w k a c := by
  have hs : score_item b w k = score_item c w k := congrArg Prod.fst he
  have ht : pyTs b = pyTs c := congrArg Prod.snd he
  unfold kGT at h ⊢
  rw [← hs, ← ht]
  exact h

theorem kGT_key_left {w : List (String × Int)} {k : List String} {a b c : Row}
    (h : kGT w k b c) (he : pyKey w k a = pyKey w k b) : kGT w k a c := by
  have hs : score_item a w k = score_item b w k := congrArg Prod.fst he
  have ht : pyTs a = pyTs b := congrArg Prod.snd he
  unfold kGT at h ⊢
  rw [hs, ht]
  exact h

theorem pyLeIdx_total (w : List (String × Int)) (k : List String) (p q : Nat × Row) :
    pyLeIdx w k p q = true ∨ pyLeIdx w k q p = true := by
  rw [pyLeIdx_iff, pyLeIdx_iff]
  by_cases h1 : score_item q.2 w k < score_item p.2 w k
  · exact Or.inl (Or.inl (Or.inl h1))
  by_cases h2 : score_item p.2 w k < score_item q.2 w k
  · exact Or.inr (Or.inl (Or.inl h2))
  have hse : score_item p.2 w k = score_item q.2 w k := by omega
  cases hab : tsLe (pyTs p.2) (pyTs q.2) with
  | false =>
    have hba : tsLe (pyTs q.2) (pyTs p.2) = true :=
      (tsLe_total (pyTs p.2) (pyTs q.2)).resolve_left (by simp [hab])
    exact Or.inl (Or.inl (Or.inr ⟨hse, hba, hab⟩))
  | true =>
    cases hba : tsLe (pyTs q.2) (pyTs p.2) with
    | false => exact Or.inr (Or.inl (Or.inr ⟨hse.symm, hab, hba⟩))
    | true =>
      have hts : pyTs p.2 = pyTs q.2 := tsLe_antisymm hab hba
      have hkey : pyKey w k p.2 = pyKey w k q.2 := by simp [pyKey, hse, hts]
      rcases Nat.le_total p.1 q.1 with h | h
      · exact Or.inl (Or.inr ⟨hkey, h⟩)
      · exact Or.inr (Or.inr ⟨hkey.symm, h⟩)

theorem pyLeIdx_trans (w : List (String × Int)) (k : List String) (p q r : Nat × Row)
    (h1 : pyLeIdx w k p q = true) (h2 : pyLeIdx w k q r = true) :
    pyLeIdx w k p r = true := by
  rw [pyLeIdx_iff] at h1 h2 ⊢
  rcases h1 with h1 | ⟨hk1, hi1⟩ <;> rcases h2 with h2 | ⟨hk2, hi2⟩
  · exact Or.inl (kGT_trans h1 h2)
  · exact Or.inl (kGT_key_right h1 hk2)
  · exact Or.inl (kGT_key_left h2 hk1)
  · exact Or.inr ⟨hk1.trans hk2, le_trans hi1 hi2⟩

theorem pyTs_eq_coalesce {cutoff : String} {r : Row} (hc : cutoff ≠ "")
    (hwin : inWindowB cutoff r = true) : pyTs r = coalesceTs r := by
  cases hp : r.published_at with
  | none =>
    by_cases he : r.created_at.isEmpty = true
    · have h0 : r.created_at = "" := (String.isEmpty_iff _).mp he
      simp [pyTs, orFalsy, coalesceTs, hp, h0]
    · simp [pyTs, orFalsy, coalesceTs, hp, he]
  | some s =>
    by_cases hse : s.isEmpty = true
    · have hs0 : s = "" := (String.isEmpty_iff _).mp hse
      have hco : coalesceTs r = "" := by simp [coalesceTs, hp, hs0]
      rw [inWindowB, hco] at hwin
      exact absurd (tsLe_empty_right hwin) hc
    · simp [pyTs, orFalsy, coalesceTs, hp, hse]

theorem rankSortedIdx_nodup_fst (w : List (String × Int)) (k : List String)
    (items : List Row) : ((rankSortedIdx w k items).map Prod.fst).Nodup := by
  have hperm := (sortOrd_perm (pyLeIdx w k) items.enum).map Prod.fst
  have hen : (items.enum.map Prod.fst).Nodup := by
    rw [List.enum_map_fst]
    exact List.nodup_range _
  exact hperm.nodup_iff.mpr hen

/-- Claim C4 (restricted, as the claim is, to lists of in-window items, where
the source's falsy-`or` recency key agrees with `COALESCE`): the ranking sort
is a permutation of its input that is ordered descending by
`(score, COALESCE(published_at, created_at))` with score primary, the
coalesced timestamp as tie-break, and, for full ties, the original insertion
order — so the ordering is deterministic. -/
theorem ranking_sort_correct (w : List (String × Int)) (k : List String) (cutoff : String)
    (items : List Row) (hc : cutoff ≠ "")
    (hw : ∀ r ∈ items, inWindowB cutoff r = true) :
    List.Perm (rankSorted w k items) items ∧
    (rankSortedIdx w k items).Pairwise (claimRel w k) := by
  have hperm : List.Perm (rankSortedIdx w k items) items.enum := sortOrd_perm _ _
  constructor
  · have h1 := hperm.map Prod.snd
    rwa [List.enum_map_snd] at h1
  · have hpw : (rankSortedIdx w k items).Pairwise (fun p q => pyLeIdx w k p q = true) :=
      sortOrd_pairwise (pyLeIdx_total w k) (pyLeIdx_trans w k) _
    have hne : (rankSortedIdx w k items).Pairwise (fun p q => p.1 ≠ q.1) :=
      List.pairwise_map.mp (rankSortedIdx_nodup_fst w k items)
    refine List.Pairwise.imp_of_mem ?_ (hpw.and hne)
    intro p q hpmem hqmem hpq
    obtain ⟨hle, hneq⟩ := hpq
    have hrowp : p.2 ∈ items := by
      have h1 : p ∈ items.enum := hperm.mem_iff.mp hpmem
      have h2 := List.mem_map_of_mem Prod.snd h1
      rwa [List.enum_map_snd] at h2
    have hrowq : q.2 ∈ items := by
      have h1 : q ∈ items.enum := hperm.mem_iff.mp hqmem
      have h2 := List.mem_map_of_mem Prod.snd h1
      rwa [List.enum_map_snd] at h2
    have hpts : pyTs p.2 = coalesceTs p.2 := pyTs_eq_coalesce hc (hw _ hrowp)
    have hqts : pyTs q.2 = coalesceTs q.2 := pyTs_eq_coalesce hc (hw _ hrowq)
    rw [pyLeIdx_iff] at hle
    rcases hle with hle | ⟨hkey, hidx⟩
    · rcases hle with hscore | ⟨hs, hts, hnts⟩
      · exact Or.inl hscore
      · refine Or.inr ⟨hs, Or.inl ⟨?_, ?_⟩⟩
        · rw [← hpts, ← hqts]
          exact hts
        · intro he
          have h1 : tsLe (pyTs p.2) (pyTs q.2) = true := by
            rw [hpts, hqts, he]
            exact tsLe_refl _
          rw [hnts] at h1
          cases h1
    · have hs : score_item p.2 w k = score_item q.2 w k := congrArg Prod.fst hkey
      have ht : pyTs p.2 = pyTs q.2 := congrArg Prod.snd hkey
      refine Or.inr ⟨hs, Or.inr ⟨?_, ?_⟩⟩
      · rw [← hpts, ← hqts]
        exact ht
      · omega

/-- Witness for C4 at a concrete window, weight table and keyword list. -/
theorem ranking_sort_correct_witness :
    ("2026-10-05T00:00:00+00:00" ≠ "" ∧
      ∀ r ∈ [exRow6, exRow1], inWindowB "2026-10-05T00:00:00+00:00" r = true) ∧
    List.Perm (rankSorted [("council_rss", 3)] ["housing"] [exRow6, exRow1]) [exRow6, exRow1] ∧
    (rankSortedIdx [("council_rss", 3)] ["housing"] [exRow6, exRow1]).Pairwise
      (claimRel [("council_rss", 3)] ["housing"]) :=
  ⟨⟨by decide, by decide⟩,
   ranking_sort_correct [("council_rss", 3)] ["housing"] "2026-10-05T00:00:00+00:00"
     [exRow6, exRow1] (by decide) (by decide)⟩
